import Mathlib

/-!
# Cluster controller: work loop, key processing and startup

A shallow embedding of `pkg/controller/clustercontroller/controller.go`.

The methods of the controller are stateful and talk to collaborators that live
outside the file (the lister, `Sync`, the `k8sutil` helpers, the informer, the
work queue).  The embedding passes the world explicitly: every collaborator is a
function of an abstract world state `σ`, and every method returns its Go result,
the new world and the list of calls it made, in order.  Logger calls and the
context plumbing of `work` have no observable effect on the calls made and are
left out.

Two functions of the client-go library that the controller relies on are
embedded as the library defines them: `cache.SplitMetaNamespaceKey` and the
rate limiter `workqueue.DefaultControllerRateLimiter`.  The status step of
`Sync` and the update of a status condition, whose code is not part of the
sources at hand, follow the design document of the controller.
-/

namespace ClusterController

/-! ## Data model -/

/-- A Go `error` value. -/
structure GoError where
  msg : String
deriving DecidableEq, Repr

/-- The `MysqlCluster` resource as far as the controller looks at it. -/
structure MysqlCluster where
  Namespace : String
  Name : String
  Replicas : Int
deriving DecidableEq, Repr

/-- An `interface{}` item taken from the work queue: a string key, or a value
of some other dynamic type. -/
inductive Obj where
  | str (key : String)
  | other (tag : Nat)
deriving DecidableEq, Repr

/-- The calls a controller method makes on its collaborators. -/
inductive Event where
  | queueGet
  | queueDone (obj : Obj)
  | queueForget (obj : Obj)
  | queueAddRateLimited (obj : Obj)
  | queueShutDown
  | handleError (format : String) (arg : String)
  | listerGet (name : String)
  | sync (cluster : MysqlCluster)
  | createCRD
  | waitCRDReady
  | informerSynced
  | waitForCacheSync
  | wgAdd
  | wgDone
  | wgWait
  | goWorker (i : Nat)
  | recvStop
deriving DecidableEq, Repr

/-- The fields of `Controller` that are plain configuration. -/
structure Controller where
  Namespace : String
  ServiceAccount : String
  CreateCRD : Bool
deriving DecidableEq, Repr

/-- The collaborators of the controller, as functions of the world state:
`clusterLister.Get`, `k8sutil.IsKubernetesResourceNotFoundError`, `c.Sync`,
`k8sutil.CreateCRD`, `k8sutil.WaitCRDReady`, `clusterInformerSync` and
`cache.WaitForCacheSync`.  The last two fields stand for what the scheduler and
the owner of the stop channel do once `Start` has spawned its workers:
`stopCloses` says whether the stop channel is ever closed, and `workerRuns i`
whether goroutine `i` finds the stop channel still open at the first check of
`wait.Until`, so that it runs `work` at all. -/
structure Collaborators (σ : Type) where
  listerGet : σ → String → Except GoError MysqlCluster
  IsKubernetesResourceNotFoundError : GoError → Bool
  Sync : σ → MysqlCluster → Option GoError × σ
  CreateCRD : σ → Option GoError × σ
  WaitCRDReady : σ → Option GoError × σ
  clusterInformerSync : σ → Bool
  WaitForCacheSync : σ → Bool × σ
  stopCloses : σ → Bool
  workerRuns : σ → Nat → Bool

/-- What a method leaves behind: its Go return value, the world after it, and
the calls it made. -/
structure Outcome (α σ : Type) where
  ret : α
  world : σ
  log : List Event

/-! ## `cache.SplitMetaNamespaceKey` -/

/-- Go `strings.Split(s, "/")` on the characters of `s`. -/
def splitSlash : List Char → List (List Char)
  | [] => [[]]
  | c :: cs =>
    if c = '/' then [] :: splitSlash cs
    else
      match splitSlash cs with
      | [] => [[c]]
      | p :: ps => (c :: p) :: ps

/-- The function `cache.SplitMetaNamespaceKey` of the client-go library, which
`processNextWorkItem` calls: the key is split at every slash; one part is a bare
name with an empty namespace, two parts are namespace and name, any other
number of parts is an error. -/
def SplitMetaNamespaceKey (key : String) : Except GoError (String × String) :=
  match splitSlash key.toList with
  | [name] => .ok ("", String.mk name)
  | [ns, name] => .ok (String.mk ns, String.mk name)
  | _ => .error ⟨"unexpected key format: " ++ key⟩

/-- Whether `cache.SplitMetaNamespaceKey` returns an error for the key. -/
def keyRejected (key : String) : Bool :=
  match SplitMetaNamespaceKey key with
  | .error _ => true
  | .ok _ => false

/-! ## `processNextWorkItem` and `work` -/

/-- `Controller.processNextWorkItem`. -/
def processNextWorkItem {σ : Type} (K : Collaborators σ) (w : σ) (key : String) :
    Outcome (Option GoError) σ :=
  match SplitMetaNamespaceKey key with
  | .error _ => ⟨none, w, [.handleError "invalid resource key: %s" key]⟩
  | .ok (_, name) =>
    match K.listerGet w name with
    | .error err =>
      if K.IsKubernetesResourceNotFoundError err then
        ⟨none, w, [.listerGet name,
          .handleError "issuer %q in work queue no longer exists" key]⟩
      else
        ⟨some err, w, [.listerGet name]⟩
    | .ok mysqlCluster =>
      let r := K.Sync w mysqlCluster
      ⟨r.1, r.2, [.listerGet name, .sync mysqlCluster]⟩

/-- The function literal inside the loop of `Controller.work`, with its
deferred `c.queue.Done(obj)`. -/
def workClosure {σ : Type} (K : Collaborators σ) (w : σ) (obj : Obj) :
    Outcome (Option GoError) σ :=
  match obj with
  | .other _ => ⟨none, w, [.queueDone obj]⟩
  | .str key =>
    let r := processNextWorkItem K w key
    match r.ret with
    | some err => ⟨some err, r.world, r.log ++ [.queueDone obj]⟩
    | none => ⟨none, r.world, r.log ++ [.queueForget obj, .queueDone obj]⟩

/-- One pass through the body of the loop of `Controller.work` for an item
fetched with the shutdown flag false. -/
def workIteration {σ : Type} (K : Collaborators σ) (w : σ) (obj : Obj) :
    Outcome Unit σ :=
  let r := workClosure K w obj
  match r.ret with
  | some _ => ⟨(), r.world, r.log ++ [.queueAddRateLimited obj]⟩
  | none => ⟨(), r.world, r.log⟩

/-- How a run of `Controller.work` ends on a finite list of deliveries: it
returns, or it is left waiting in `queue.Get` because nothing more is
delivered. -/
inductive WorkStatus where
  | returned
  | blockedOnGet
deriving DecidableEq, Repr

/-- `Controller.work`, run against the deliveries `queue.Get` hands out. -/
def work {σ : Type} (K : Collaborators σ) (w : σ) :
    List (Obj × Bool) → Outcome WorkStatus σ
  | [] => ⟨.blockedOnGet, w, [.queueGet]⟩
  | (obj, shutdown) :: rest =>
    if shutdown then
      ⟨.returned, w, [.queueGet, .wgDone]⟩
    else
      let r := workIteration K w obj
      let r2 := work K r.world rest
      ⟨r2.ret, r2.world, .queueGet :: (r.log ++ r2.log)⟩

/-- The run a worker is expected to make over items fetched with the shutdown
flag false: for each item in turn one `Get` and then one pass of the loop body,
each pass starting in the world the pass before it left. -/
def handleItems {σ : Type} (K : Collaborators σ) (w : σ) : List Obj → Outcome Unit σ
  | [] => ⟨(), w, []⟩
  | obj :: objs =>
    let r := workIteration K w obj
    let r2 := handleItems K r.world objs
    ⟨(), r2.world, .queueGet :: (r.log ++ r2.log)⟩

/-! ## `createCRDIfNotExists` and `Start` -/

/-- `Controller.createCRDIfNotExists`. -/
def createCRDIfNotExists {σ : Type} (K : Collaborators σ) (w : σ) :
    Outcome (Option GoError) σ :=
  match K.CreateCRD w with
  | (some err, w1) => ⟨some err, w1, [.createCRD]⟩
  | (none, w1) =>
    let r := K.WaitCRDReady w1
    ⟨r.1, r.2, [.createCRD, .waitCRDReady]⟩

/-- The calls of the loop `for i := 0; i < workers; i++` in `Start`. -/
def spawnWorkers (workers : Int) : List Event :=
  (List.range workers.toNat).flatMap (fun i => [Event.wgAdd, Event.goWorker i])

/-- How a call of `Controller.Start` ends: it returns, or it waits for ever in
the receive on the stop channel, or in `workerWg.Wait`. -/
inductive StartStatus where
  | returned
  | blockedOnStop
  | blockedOnWait
deriving DecidableEq, Repr

/-- What `Controller.Start` leaves behind: the error it returns (read only when
the status is `returned`), the world, the calls it made, and how it ended. -/
structure StartOutcome (σ : Type) where
  ret : Option GoError
  world : σ
  log : List Event
  status : StartStatus

/-- The part of `Controller.Start` after the bootstrap step.  Once the workers
are spawned `Start` waits in the receive on the stop channel; if the channel is
closed it shuts the queue down and waits on the wait group, which is released
only if every goroutine ran `work`, whose deferred `workerWg.Done` is the one
place the group is signalled. -/
def startAfterBootstrap {σ : Type} (K : Collaborators σ) (workers : Int) (w : σ)
    (pre : List Event) : StartOutcome σ :=
  match K.WaitForCacheSync w with
  | (false, w2) =>
    ⟨some ⟨"error waiting for informer cache to sync."⟩, w2,
      pre ++ [.informerSynced, .informerSynced, .waitForCacheSync], .returned⟩
  | (true, w2) =>
    if !K.stopCloses w2 then
      ⟨none, w2,
        pre ++ [.informerSynced, .informerSynced, .waitForCacheSync]
          ++ spawnWorkers workers ++ [.recvStop], .blockedOnStop⟩
    else if (List.range workers.toNat).all (K.workerRuns w2) then
      ⟨none, w2,
        pre ++ [.informerSynced, .informerSynced, .waitForCacheSync]
          ++ spawnWorkers workers ++ [.recvStop, .queueShutDown, .wgWait], .returned⟩
    else
      ⟨none, w2,
        pre ++ [.informerSynced, .informerSynced, .waitForCacheSync]
          ++ spawnWorkers workers ++ [.recvStop, .queueShutDown, .wgWait], .blockedOnWait⟩

/-- `Controller.Start`. -/
def Start {σ : Type} (c : Controller) (K : Collaborators σ) (workers : Int)
    (w : σ) : StartOutcome σ :=
  if !c.CreateCRD then
    let b := createCRDIfNotExists K w
    match b.ret with
    | some err => ⟨some err, b.world, b.log, .returned⟩
    | none => startAfterBootstrap K workers b.world b.log
  else
    startAfterBootstrap K workers w []

/-! ## Projections of a call log -/

/-- The calls made on the work queue by a worker for an item. -/
def Event.isQueueItemCall : Event → Bool
  | .queueDone _ => true
  | .queueForget _ => true
  | .queueAddRateLimited _ => true
  | _ => false

/-- Calls of `Sync`. -/
def Event.isSync : Event → Bool
  | .sync _ => true
  | _ => false

/-- Lookups in the cache. -/
def Event.isLookup : Event → Bool
  | .listerGet _ => true
  | _ => false

/-- Worker goroutines started. -/
def Event.isGoWorker : Event → Bool
  | .goWorker _ => true
  | _ => false

/-- The call `queue.Done`. -/
def Event.isDone : Event → Bool
  | .queueDone _ => true
  | _ => false

/-- The world in which `Start` reaches the cache-sync wait. -/
def worldAtCacheSync {σ : Type} (c : Controller) (K : Collaborators σ) (w : σ) : σ :=
  if c.CreateCRD then w else (createCRDIfNotExists K w).world

/-! ## Status conditions -/

/-- The three values of a condition status. -/
inductive ConditionStatus where
  | ConditionTrue
  | ConditionFalse
  | ConditionUnknown
deriving DecidableEq, Repr

/-- A status condition of a cluster. -/
structure Condition where
  condType : String
  status : ConditionStatus
  reason : String
  message : String
  lastTransitionTime : Nat
deriving DecidableEq, Repr

/-- The stateful workload as far as the status derivation reads it: its declared
replica count and its observed ready-replica count. -/
structure StatefulSet where
  specReplicas : Int
  readyReplicas : Int
deriving DecidableEq, Repr

/-- Modelled from the spec: the ConditionTracker transform, whose code is not
among the sources.  If no condition of the type exists a new entry is added with
the current time; if one exists and its status differs, it is replaced by a new
entry with the current time; if its status is unchanged, reason and message are
updated and `lastTransitionTime` is kept; conditions of other types pass
through. -/
def updateStatusCondition (conds : List Condition) (condType : String)
    (status : ConditionStatus) (reason message : String) (now : Nat) :
    List Condition :=
  match conds with
  | [] => [⟨condType, status, reason, message, now⟩]
  | c :: cs =>
    if c.condType = condType then
      (if c.status = status then
          ⟨condType, status, reason, message, c.lastTransitionTime⟩
        else ⟨condType, status, reason, message, now⟩) :: cs
    else c :: updateStatusCondition cs condType status reason message now

/-- Modelled from the spec: the status that `Sync` derives for the Ready
condition, whose code is not among the sources.  It is True only when the
observed ready-replica count of the workload equals both the declared replica
count of the workload and the replica count declared on the cluster spec, and
False otherwise. -/
def readyStatus (cluster : MysqlCluster) (sts : StatefulSet) : ConditionStatus :=
  if sts.readyReplicas = sts.specReplicas ∧ sts.readyReplicas = cluster.Replicas then
    .ConditionTrue
  else
    .ConditionFalse

/-- Modelled from the spec: the status step of `Sync`, whose code is not among
the sources.  The Ready condition is evaluated from the observed workload and
handed to the ConditionTracker with the current time. -/
def syncStatus (cluster : MysqlCluster) (sts : StatefulSet) (conds : List Condition)
    (reason message : String) (now : Nat) : List Condition :=
  updateStatusCondition conds "Ready" (readyStatus cluster sts) reason message now

/-- The first condition of a type in a condition list. -/
def findCondition (conds : List Condition) (condType : String) : Option Condition :=
  conds.find? (fun c => decide (c.condType = condType))

/-! ## The rate limiter of the queue -/

/-- The longest duration, `rate.InfDuration`, in nanoseconds. -/
def InfDuration : Nat := 2 ^ 63 - 1

/-- The state of the limiter that `New` builds the queue with,
`workqueue.DefaultControllerRateLimiter()` of the client-go library: the
maximum of an `ItemExponentialFailureRateLimiter`, with a failure counter per
item, a base delay and a maximal delay, and of a `BucketRateLimiter`, one token
bucket shared by all items.  Durations and clock readings are in nanoseconds.
The tokens of the bucket are kept as the time it takes to earn them, `perToken`
nanoseconds each, so that the arithmetic of the bucket is exact where the
library rounds in floating point. -/
structure RateLimiter where
  baseDelay : Nat
  maxDelay : Nat
  failures : Obj → Nat
  perToken : Nat
  burst : Nat
  credit : Int
  last : Nat

/-- The limiter `workqueue.DefaultControllerRateLimiter()` as built: base delay
5 ms, maximal delay 1000 s, no failures recorded; 10 tokens per second, a burst
of 100, the bucket full. -/
def DefaultControllerRateLimiter : RateLimiter where
  baseDelay := 5000000
  maxDelay := 1000000000000
  failures := fun _ => 0
  perToken := 100000000
  burst := 100
  credit := 10000000000
  last := 0

/-- The delay `ItemExponentialFailureRateLimiter.When` computes for an item: the
base delay doubled once per recorded failure, capped at the maximal delay. -/
def RateLimiter.backoff (r : RateLimiter) (item : Obj) : Nat :=
  min (r.baseDelay * 2 ^ r.failures item) r.maxDelay

/-- The reservation of one token at the clock reading `now`, as in
`rate.Limiter.Reserve`: the bucket earns credit for the time since the last
reservation, up to its burst, and the token is taken from it; a negative
balance is the wait.  The result is the wait, the new credit and the new time
of the last reservation; a reservation that cannot be granted waits
`InfDuration` and takes nothing. -/
def RateLimiter.reserve (r : RateLimiter) (now : Nat) : Nat × Int × Nat :=
  let last := min r.last now
  let tokens : Int :=
    min (r.credit + ((now - last : Nat) : Int)) ((r.burst * r.perToken : Nat) : Int)
      - (r.perToken : Int)
  let wait := (-tokens).toNat
  if 1 ≤ r.burst ∧ wait ≤ InfDuration then (wait, tokens, now)
  else (InfDuration, r.credit, last)

/-- The method `When` of the limiter, called by `AddRateLimited` with an item at
the clock reading `now`: the larger of the delays of its two parts; the failure
counter of the item goes up by one and the bucket gives one token. -/
def RateLimiter.When (r : RateLimiter) (item : Obj) (now : Nat) : Nat × RateLimiter :=
  (max (r.backoff item) (r.reserve now).1,
    { r with
      failures := fun o => if o = item then r.failures item + 1 else r.failures o
      credit := (r.reserve now).2.1
      last := (r.reserve now).2.2 })

/-- The method `Forget` of the limiter: the failure counter of the item is
dropped; the bucket is left as it is. -/
def RateLimiter.Forget (r : RateLimiter) (item : Obj) : RateLimiter :=
  { r with failures := fun o => if o = item then 0 else r.failures o }

/-- The method `NumRequeues` of the limiter: the larger of the failure counter of
the item and of the count of the bucket, which is always 0. -/
def RateLimiter.NumRequeues (r : RateLimiter) (item : Obj) : Nat :=
  max (r.failures item) 0

/-- The two queue operations that touch the limiter: `AddRateLimited` of an
item, with the clock reading at the call, and `Forget` of an item. -/
inductive QueueOp where
  | addRateLimited (item : Obj) (now : Nat)
  | forget (item : Obj)
deriving DecidableEq, Repr

/-- One delay applied by `AddRateLimited`: the item, the delay of the per-item
exponential part, the wait of the token bucket, and the delay applied. -/
structure Applied where
  item : Obj
  backoff : Nat
  wait : Nat
  delay : Nat
deriving DecidableEq, Repr

/-- The delays applied, in order, over a sequence of queue operations. -/
def RateLimiter.run : RateLimiter → List QueueOp → List Applied
  | _, [] => []
  | r, .addRateLimited item now :: ops =>
    ⟨item, r.backoff item, (r.reserve now).1, (r.When item now).1⟩
      :: (r.When item now).2.run ops
  | r, .forget item :: ops => (r.Forget item).run ops

/-- The limiter after a sequence of queue operations. -/
def RateLimiter.after : RateLimiter → List QueueOp → RateLimiter
  | r, [] => r
  | r, .addRateLimited item now :: ops => (r.When item now).2.after ops
  | r, .forget item :: ops => (r.Forget item).after ops

/-- The delays applied to one item, in order. -/
def delaysOf (item : Obj) (log : List Applied) : List Nat :=
  (log.filter (fun a => decide (a.item = item))).map (fun a => a.delay)

/-- The delays of the per-item exponential part for one item, in order. -/
def backoffsOf (item : Obj) (log : List Applied) : List Nat :=
  (log.filter (fun a => decide (a.item = item))).map (fun a => a.backoff)

/-- A burst of `n` failures of other items, all at the clock reading 0. -/
def burstOfOthers (n : Nat) : List QueueOp :=
  List.replicate n (.addRateLimited (.other 0) 0)

/-! ## A small world for concrete runs -/

/-- A world that counts the calls of `Sync`.  The cache holds the clusters `db`
and `flaky`; looking up `down` fails with a connection error and any other name
is reported as not found.  `Sync` fails on `flaky` with a version conflict.  The
stop channel is closed after every worker has entered `work`. -/
def demo : Collaborators Nat where
  listerGet := fun _ name =>
    if name = "db" then .ok ⟨"default", "db", 2⟩
    else if name = "flaky" then .ok ⟨"default", "flaky", 1⟩
    else if name = "down" then .error ⟨"connection refused"⟩
    else .error ⟨"not found"⟩
  IsKubernetesResourceNotFoundError := fun e => e.msg == "not found"
  Sync := fun w c =>
    if c.Name = "flaky" then (some ⟨"conflict"⟩, w + 1) else (none, w + 1)
  CreateCRD := fun w => (none, w)
  WaitCRDReady := fun w => (none, w)
  clusterInformerSync := fun _ => true
  WaitForCacheSync := fun w => (true, w)
  stopCloses := fun _ => true
  workerRuns := fun _ _ => true

/-- The world `demo` with a schema registrar that refuses the registration. -/
def demoNoRegistrar : Collaborators Nat :=
  { demo with CreateCRD := fun w => (some ⟨"forbidden"⟩, w) }

/-- The world `demo` with a stop signal that fires before the cache has synced. -/
def demoStopped : Collaborators Nat :=
  { demo with WaitForCacheSync := fun w => (false, w) }

/-- The world `demo` with a stop channel that is already closed when the
goroutines of the workers are scheduled. -/
def demoEarlyStop : Collaborators Nat :=
  { demo with workerRuns := fun _ _ => false }

/-! ## Keys -/

theorem splitSlash_length (cs : List Char) :
    (splitSlash cs).length = cs.count '/' + 1 := by
  induction cs with
  | nil => rfl
  | cons c cs ih =>
    by_cases hc : c = '/'
    · subst hc
      simp [splitSlash, ih]
    · have hne : (c == '/') = false := by simpa using hc
      cases hs : splitSlash cs with
      | nil => rw [hs] at ih; simp at ih
      | cons p ps =>
        rw [hs] at ih
        simp [splitSlash, hc, hs, List.count_cons, hne] at ih ⊢
        omega

theorem keyRejected_iff (key : String) :
    keyRejected key = true ↔ 2 ≤ key.toList.count '/' := by
  have hlen := splitSlash_length key.toList
  unfold keyRejected SplitMetaNamespaceKey
  rcases hs : splitSlash key.toList with _ | ⟨a, _ | ⟨b, _ | ⟨c, l⟩⟩⟩ <;>
    rw [hs] at hlen <;> simp at hlen ⊢ <;> omega

theorem split_of_rejected (key : String) (h : keyRejected key = true) :
    ∃ e, SplitMetaNamespaceKey key = .error e := by
  unfold keyRejected at h
  cases hs : SplitMetaNamespaceKey key with
  | error e => exact ⟨e, rfl⟩
  | ok v => rw [hs] at h; simp at h

/-! ## Processing one key -/

theorem processNextWorkItem_rejected {σ : Type} (K : Collaborators σ) (w : σ)
    (key : String) (e : GoError) (h : SplitMetaNamespaceKey key = .error e) :
    processNextWorkItem K w key
      = ⟨none, w, [.handleError "invalid resource key: %s" key]⟩ := by
  simp [processNextWorkItem, h]

theorem processNextWorkItem_notFound {σ : Type} (K : Collaborators σ) (w : σ)
    (key ns name : String) (err : GoError)
    (hkey : SplitMetaNamespaceKey key = .ok (ns, name))
    (hget : K.listerGet w name = .error err)
    (hnf : K.IsKubernetesResourceNotFoundError err = true) :
    processNextWorkItem K w key
      = ⟨none, w, [.listerGet name,
          .handleError "issuer %q in work queue no longer exists" key]⟩ := by
  simp [processNextWorkItem, hkey, hget, hnf]

theorem processNextWorkItem_lookupError {σ : Type} (K : Collaborators σ) (w : σ)
    (key ns name : String) (err : GoError)
    (hkey : SplitMetaNamespaceKey key = .ok (ns, name))
    (hget : K.listerGet w name = .error err)
    (hnf : K.IsKubernetesResourceNotFoundError err = false) :
    processNextWorkItem K w key = ⟨some err, w, [.listerGet name]⟩ := by
  simp [processNextWorkItem, hkey, hget, hnf]

theorem processNextWorkItem_found {σ : Type} (K : Collaborators σ) (w : σ)
    (key ns name : String) (c : MysqlCluster)
    (hkey : SplitMetaNamespaceKey key = .ok (ns, name))
    (hget : K.listerGet w name = .ok c) :
    processNextWorkItem K w key
      = ⟨(K.Sync w c).1, (K.Sync w c).2, [.listerGet name, .sync c]⟩ := by
  simp [processNextWorkItem, hkey, hget]

theorem processNextWorkItem_no_queue_call {σ : Type} (K : Collaborators σ) (w : σ)
    (key : String) :
    (processNextWorkItem K w key).log.filter Event.isQueueItemCall = [] := by
  unfold processNextWorkItem
  split
  · rfl
  · split
    · split <;> rfl
    · rfl

theorem workIteration_log {σ : Type} (K : Collaborators σ) (w : σ) (key : String) :
    (workIteration K w (.str key)).log
      = (processNextWorkItem K w key).log ++
        (match (processNextWorkItem K w key).ret with
          | none => [.queueForget (.str key), .queueDone (.str key)]
          | some _ => [.queueDone (.str key), .queueAddRateLimited (.str key)]) := by
  unfold workIteration workClosure
  cases h : (processNextWorkItem K w key).ret <;> simp [h]

theorem workIteration_queue_calls {σ : Type} (K : Collaborators σ) (w : σ)
    (key : String) :
    (workIteration K w (.str key)).log.filter Event.isQueueItemCall
      = (match (processNextWorkItem K w key).ret with
          | none => [.queueForget (.str key), .queueDone (.str key)]
          | some _ => [.queueDone (.str key), .queueAddRateLimited (.str key)]) := by
  rw [workIteration_log, List.filter_append, processNextWorkItem_no_queue_call]
  cases (processNextWorkItem K w key).ret <;> rfl

/-- C1: a key whose resource the lister reports as not found is processed
successfully, `Sync` is not called, and the worker handling the item calls
`Forget` and `Done` on it and never `AddRateLimited`. -/
theorem absent_resource_succeeds_without_requeue {σ : Type} (K : Collaborators σ)
    (w : σ) (key ns name : String) (err : GoError)
    (hkey : SplitMetaNamespaceKey key = .ok (ns, name))
    (hget : K.listerGet w name = .error err)
    (hnf : K.IsKubernetesResourceNotFoundError err = true) :
    (processNextWorkItem K w key).ret = none
      ∧ (processNextWorkItem K w key).log.filter Event.isSync = []
      ∧ (workIteration K w (.str key)).log.filter Event.isQueueItemCall
          = [.queueForget (.str key), .queueDone (.str key)]
      ∧ ∀ o, Event.queueAddRateLimited o ∉ (workIteration K w (.str key)).log := by
  have hp := processNextWorkItem_notFound K w key ns name err hkey hget hnf
  have hl := workIteration_log K w key
  have hq := workIteration_queue_calls K w key
  rw [hp] at hl hq
  refine ⟨by rw [hp], by rw [hp]; rfl, hq, ?_⟩
  intro o
  rw [hl]
  simp

theorem absent_resource_succeeds_without_requeue_witness :
    (processNextWorkItem demo 0 "default/gone").ret = none
      ∧ (processNextWorkItem demo 0 "default/gone").log.filter Event.isSync = []
      ∧ (workIteration demo 0 (.str "default/gone")).log.filter Event.isQueueItemCall
          = [.queueForget (.str "default/gone"), .queueDone (.str "default/gone")]
      ∧ ∀ o, Event.queueAddRateLimited o
          ∉ (workIteration demo 0 (.str "default/gone")).log :=
  absent_resource_succeeds_without_requeue demo 0 "default/gone" "default" "gone"
    ⟨"not found"⟩ rfl rfl rfl

/-- C2: a key that `SplitMetaNamespaceKey` rejects (the rejected keys are
exactly those with more than one slash) is processed successfully with
no call other than the report to `HandleError`: no cache lookup, no `Sync`, the
world untouched; the worker then calls `Forget` and `Done` and does not
requeue the item. -/
theorem malformed_key_is_dropped {σ : Type} (K : Collaborators σ) (w : σ)
    (key : String) (h : keyRejected key = true) :
    (∀ k : String, keyRejected k = true ↔ 2 ≤ k.toList.count '/')
      ∧ processNextWorkItem K w key
          = ⟨none, w, [.handleError "invalid resource key: %s" key]⟩
      ∧ (processNextWorkItem K w key).log.filter Event.isLookup = []
      ∧ (processNextWorkItem K w key).log.filter Event.isSync = []
      ∧ (workIteration K w (.str key)).log
          = [.handleError "invalid resource key: %s" key,
              .queueForget (.str key), .queueDone (.str key)] := by
  obtain ⟨e, he⟩ := split_of_rejected key h
  have hp := processNextWorkItem_rejected K w key e he
  have hl := workIteration_log K w key
  rw [hp] at hl
  refine ⟨keyRejected_iff, hp, by rw [hp]; rfl, by rw [hp]; rfl, ?_⟩
  rw [hl]
  rfl

theorem malformed_key_is_dropped_witness :
    keyRejected "a/b/c" = true
      ∧ (workIteration demo 0 (.str "a/b/c")).log
          = [.handleError "invalid resource key: %s" "a/b/c",
              .queueForget (.str "a/b/c"), .queueDone (.str "a/b/c")] :=
  ⟨by decide, (malformed_key_is_dropped demo 0 "a/b/c" (by decide)).2.2.2.2⟩

/-- C3: for a string item fetched with the shutdown flag false, the calls of the
worker on the queue are `Forget` then `Done` when `processNextWorkItem`
returns nil, and `Done` then `AddRateLimited` when it returns an error; for any
item at all, `Done` is called exactly once. -/
theorem worker_queue_calls_per_item {σ : Type} (K : Collaborators σ) (w : σ)
    (key : String) :
    (workIteration K w (.str key)).log.filter Event.isQueueItemCall
        = (match (processNextWorkItem K w key).ret with
            | none => [.queueForget (.str key), .queueDone (.str key)]
            | some _ => [.queueDone (.str key), .queueAddRateLimited (.str key)])
      ∧ ∀ obj : Obj,
          ((workIteration K w obj).log.filter
            (fun e => decide (e = .queueDone obj))).length = 1 := by
  refine ⟨workIteration_queue_calls K w key, ?_⟩
  intro obj
  cases obj with
  | other t => simp [workIteration, workClosure]
  | str k =>
    have hsub : ∀ l : List Event, l.filter Event.isQueueItemCall = [] →
        l.filter (fun e => decide (e = .queueDone (.str k))) = [] := by
      intro l hl
      rw [List.filter_eq_nil_iff] at hl ⊢
      intro a ha hd
      apply hl a ha
      have : a = .queueDone (.str k) := by simpa using hd
      rw [this]
      rfl
    rw [workIteration_log, List.filter_append,
      hsub _ (processNextWorkItem_no_queue_call K w k)]
    cases (processNextWorkItem K w k).ret <;> simp

/-- C4: for a well-formed key, when the cache lookup fails with an error that is
not a not-found error, or the lookup succeeds and `Sync` returns an error,
`processNextWorkItem` returns that error and the worker calls `Done` and then
`AddRateLimited` on the item, once each. -/
theorem transient_error_is_returned_and_requeued {σ : Type} (K : Collaborators σ)
    (w : σ) (key ns name : String) (err : GoError)
    (hkey : SplitMetaNamespaceKey key = .ok (ns, name))
    (h : (K.listerGet w name = .error err
            ∧ K.IsKubernetesResourceNotFoundError err = false)
          ∨ ∃ c, K.listerGet w name = .ok c ∧ (K.Sync w c).1 = some err) :
    (processNextWorkItem K w key).ret = some err
      ∧ (workIteration K w (.str key)).log.filter Event.isQueueItemCall
          = [.queueDone (.str key), .queueAddRateLimited (.str key)]
      ∧ ((workIteration K w (.str key)).log.filter
          (fun e => decide (e = .queueAddRateLimited (.str key)))).length = 1 := by
  have hret : (processNextWorkItem K w key).ret = some err := by
    rcases h with ⟨hget, hnf⟩ | ⟨c, hget, hs⟩
    · rw [processNextWorkItem_lookupError K w key ns name err hkey hget hnf]
    · rw [processNextWorkItem_found K w key ns name c hkey hget]
      exact hs
  have hq := workIteration_queue_calls K w key
  rw [hret] at hq
  refine ⟨hret, hq, ?_⟩
  have hsub : ∀ l : List Event,
      l.filter (fun e => decide (e = .queueAddRateLimited (.str key)))
        = (l.filter Event.isQueueItemCall).filter
            (fun e => decide (e = .queueAddRateLimited (.str key))) := by
    intro l
    rw [List.filter_filter]
    apply List.filter_congr
    intro a _
    by_cases ha : a = .queueAddRateLimited (.str key)
    · subst ha; simp [Event.isQueueItemCall]
    · simp [ha]
  rw [hsub, hq]
  simp

theorem transient_error_is_returned_and_requeued_witness :
    (processNextWorkItem demo 0 "default/flaky").ret = some ⟨"conflict"⟩
      ∧ (processNextWorkItem demo 0 "other/down").ret = some ⟨"connection refused"⟩ :=
  ⟨(transient_error_is_returned_and_requeued demo 0 "default/flaky" "default" "flaky"
      ⟨"conflict"⟩ rfl (Or.inr ⟨⟨"default", "flaky", 1⟩, rfl, rfl⟩)).1,
   (transient_error_is_returned_and_requeued demo 0 "other/down" "other" "down"
      ⟨"connection refused"⟩ rfl (Or.inl ⟨rfl, rfl⟩)).1⟩

/-- C6 (as stated, refuted): the keys `prod/db` and `test/db` are well formed, have
the same name and different namespaces, and `processNextWorkItem` makes the
same cache lookup for both and hands the same resource to `Sync`. -/
theorem same_name_keys_share_one_lookup :
    SplitMetaNamespaceKey "prod/db" = .ok ("prod", "db")
      ∧ SplitMetaNamespaceKey "test/db" = .ok ("test", "db")
      ∧ (processNextWorkItem demo 0 "prod/db").log
          = [.listerGet "db", .sync ⟨"default", "db", 2⟩]
      ∧ (processNextWorkItem demo 0 "test/db").log
          = [.listerGet "db", .sync ⟨"default", "db", 2⟩] :=
  ⟨rfl, rfl, by decide, by decide⟩

/-- C6 (amended): for a well-formed key the one cache lookup made is by the name
part of the key alone.  Two well-formed keys with the same name make the same
lookup and end with the same result, world and `Sync` calls whatever their
namespaces are; two keys with different names make different lookups. -/
theorem lookup_is_by_name_only {σ : Type} (K : Collaborators σ) (w : σ)
    (k1 k2 ns1 ns2 n1 n2 : String)
    (h1 : SplitMetaNamespaceKey k1 = .ok (ns1, n1))
    (h2 : SplitMetaNamespaceKey k2 = .ok (ns2, n2)) :
    (processNextWorkItem K w k1).log.filter Event.isLookup = [.listerGet n1]
      ∧ (processNextWorkItem K w k2).log.filter Event.isLookup = [.listerGet n2]
      ∧ (n1 = n2 →
          (processNextWorkItem K w k1).ret = (processNextWorkItem K w k2).ret
            ∧ (processNextWorkItem K w k1).world = (processNextWorkItem K w k2).world
            ∧ (processNextWorkItem K w k1).log.filter Event.isSync
                = (processNextWorkItem K w k2).log.filter Event.isSync)
      ∧ (n1 ≠ n2 →
          (processNextWorkItem K w k1).log.filter Event.isLookup
            ≠ (processNextWorkItem K w k2).log.filter Event.isLookup) := by
  have key : ∀ (k ns n : String), SplitMetaNamespaceKey k = .ok (ns, n) →
      (processNextWorkItem K w k).log.filter Event.isLookup = [.listerGet n] := by
    intro k ns n hk
    unfold processNextWorkItem
    rw [hk]
    dsimp only
    split
    · split <;> rfl
    · rfl
  refine ⟨key k1 ns1 n1 h1, key k2 ns2 n2 h2, ?_, ?_⟩
  · intro hn
    subst hn
    unfold processNextWorkItem
    rw [h1, h2]
    dsimp only
    split
    · split <;> simp [Event.isSync]
    · simp
  · intro hn
    rw [key k1 ns1 n1 h1, key k2 ns2 n2 h2]
    simpa using hn

theorem lookup_is_by_name_only_witness :
    (processNextWorkItem demo 0 "prod/db").log.filter Event.isLookup = [.listerGet "db"]
      ∧ (processNextWorkItem demo 0 "test/db").log.filter Event.isLookup
          = [.listerGet "db"] :=
  ⟨(lookup_is_by_name_only demo 0 "prod/db" "test/db" "prod" "test" "db" "db"
      rfl rfl).1,
   (lookup_is_by_name_only demo 0 "prod/db" "test/db" "prod" "test" "db" "db"
      rfl rfl).2.1⟩

/-! ## The worker loop -/

theorem workIteration_filter_done {σ : Type} (K : Collaborators σ) (w : σ) (obj : Obj) :
    (workIteration K w obj).log.filter Event.isDone = [.queueDone obj] := by
  cases obj with
  | other t => simp [workIteration, workClosure, Event.isDone]
  | str k =>
    rw [workIteration_log]
    unfold processNextWorkItem
    split
    · rfl
    · split
      · split <;> rfl
      · dsimp only
        cases (K.Sync w _).1 <;> rfl

theorem workIteration_filter_other {σ : Type} (K : Collaborators σ) (w : σ) (obj : Obj)
    (e : Event) (he : e = .queueGet ∨ e = .wgDone) :
    (workIteration K w obj).log.filter (fun x => decide (x = e)) = [] := by
  rw [List.filter_eq_nil_iff]
  intro a ha hd
  have hae : a = e := by simpa using hd
  subst hae
  cases obj with
  | other t =>
    rcases he with rfl | rfl <;> simp [workIteration, workClosure] at ha
  | str k =>
    rw [workIteration_log] at ha
    unfold processNextWorkItem at ha
    rcases he with rfl | rfl <;>
    · revert ha
      split
      · simp
      · split
        · split <;> simp
        · dsimp only
          cases (K.Sync w _).1 <;> simp

theorem work_cons_false {σ : Type} (K : Collaborators σ) (w : σ) (obj : Obj)
    (rest : List (Obj × Bool)) :
    work K w ((obj, false) :: rest)
      = ⟨(work K (workIteration K w obj).world rest).ret,
          (work K (workIteration K w obj).world rest).world,
          .queueGet :: ((workIteration K w obj).log
            ++ (work K (workIteration K w obj).world rest).log)⟩ := by
  simp [work]

theorem work_eq_handleItems {σ : Type} (K : Collaborators σ)
    (pre : List (Obj × Bool)) (last : Obj) (rest : List (Obj × Bool)) :
    ∀ w : σ, (∀ d ∈ pre, d.2 = false) →
      work K w (pre ++ (last, true) :: rest)
        = ⟨.returned, (handleItems K w (pre.map Prod.fst)).world,
            (handleItems K w (pre.map Prod.fst)).log ++ [.queueGet, .wgDone]⟩ := by
  induction pre with
  | nil => intro w _; simp [work, handleItems]
  | cons d pre ih =>
    intro w hpre
    obtain ⟨obj, flag⟩ := d
    have hflag : flag = false := hpre (obj, flag) (List.mem_cons_self _ _)
    subst hflag
    have hrest : ∀ d ∈ pre, d.2 = false := fun d hd => hpre d (List.mem_cons_of_mem _ hd)
    rw [List.cons_append, work_cons_false, ih (workIteration K w obj).world hrest]
    simp [handleItems]

theorem work_without_shutdown {σ : Type} (K : Collaborators σ)
    (items : List (Obj × Bool)) :
    ∀ w : σ, (∀ d ∈ items, d.2 = false) →
      work K w items
        = ⟨.blockedOnGet, (handleItems K w (items.map Prod.fst)).world,
            (handleItems K w (items.map Prod.fst)).log ++ [.queueGet]⟩ := by
  induction items with
  | nil => intro w _; simp [work, handleItems]
  | cons d items ih =>
    intro w hpre
    obtain ⟨obj, flag⟩ := d
    have hflag : flag = false := hpre (obj, flag) (List.mem_cons_self _ _)
    subst hflag
    have hrest : ∀ d ∈ items, d.2 = false :=
      fun d hd => hpre d (List.mem_cons_of_mem _ hd)
    rw [work_cons_false, ih (workIteration K w obj).world hrest]
    simp [handleItems]

theorem workIteration_world {σ : Type} (K : Collaborators σ) (w : σ) (key : String) :
    (workIteration K w (.str key)).world = (processNextWorkItem K w key).world := by
  unfold workIteration workClosure
  cases h : (processNextWorkItem K w key).ret <;> simp [h]

/-- C9: when the first delivery with the shutdown flag set is the one after the
items `pre`, the run of the worker loop is exactly: for each item of `pre` in
turn a `Get` and a full pass of the loop body, started in the world the pass
before left, then one more `Get`, the signal to the wait group, and the return.
A pass for a string item is the run of `processNextWorkItem` on it followed by
`Forget` and `Done`, or by `Done` and `AddRateLimited` when it failed; a pass
for an item that is not a string is its `Done`.  So every item of `pre` gets
its `Done`, in order, the wait group is signalled exactly once and as the last
call, and on `pre` alone, or any shorter run of items, the loop has made the
passes for those items, has not returned and waits in `Get`. -/
theorem worker_runs_until_shutdown {σ : Type} (K : Collaborators σ) (w : σ)
    (pre : List (Obj × Bool)) (last : Obj) (rest : List (Obj × Bool))
    (hpre : ∀ d ∈ pre, d.2 = false) :
    work K w (pre ++ (last, true) :: rest)
        = ⟨.returned, (handleItems K w (pre.map Prod.fst)).world,
            (handleItems K w (pre.map Prod.fst)).log ++ [.queueGet, .wgDone]⟩
      ∧ (∀ (w1 : σ) (key : String),
          (workIteration K w1 (.str key)).log
              = (processNextWorkItem K w1 key).log ++
                (match (processNextWorkItem K w1 key).ret with
                  | none => [.queueForget (.str key), .queueDone (.str key)]
                  | some _ => [.queueDone (.str key), .queueAddRateLimited (.str key)])
            ∧ (workIteration K w1 (.str key)).world = (processNextWorkItem K w1 key).world)
      ∧ (∀ (w1 : σ) (tag : Nat),
          (workIteration K w1 (.other tag)).log = [.queueDone (.other tag)]
            ∧ (workIteration K w1 (.other tag)).world = w1)
      ∧ (work K w (pre ++ (last, true) :: rest)).ret = .returned
      ∧ (work K w (pre ++ (last, true) :: rest)).log.filter Event.isDone
          = pre.map (fun d => Event.queueDone d.1)
      ∧ ((work K w (pre ++ (last, true) :: rest)).log.filter
          (fun x => decide (x = .queueGet))).length = pre.length + 1
      ∧ ((work K w (pre ++ (last, true) :: rest)).log.filter
          (fun x => decide (x = .wgDone))).length = 1
      ∧ (work K w (pre ++ (last, true) :: rest)).log.getLast? = some .wgDone
      ∧ (∀ k, work K w (pre.take k)
          = ⟨.blockedOnGet, (handleItems K w ((pre.take k).map Prod.fst)).world,
              (handleItems K w ((pre.take k).map Prod.fst)).log ++ [.queueGet]⟩)
      ∧ ∀ k, (work K w (pre.take k)).ret = .blockedOnGet := by
  have hblocked : ∀ k, work K w (pre.take k)
      = ⟨.blockedOnGet, (handleItems K w ((pre.take k).map Prod.fst)).world,
          (handleItems K w ((pre.take k).map Prod.fst)).log ++ [.queueGet]⟩ :=
    fun k => work_without_shutdown K (pre.take k) w
      (fun d hd => hpre d (List.mem_of_mem_take hd))
  refine ⟨work_eq_handleItems K pre last rest w hpre,
    fun w1 key => ⟨workIteration_log K w1 key, workIteration_world K w1 key⟩,
    fun w1 tag => ⟨rfl, rfl⟩, ?_⟩
  suffices hmain : (work K w (pre ++ (last, true) :: rest)).ret = .returned
      ∧ (work K w (pre ++ (last, true) :: rest)).log.filter Event.isDone
          = pre.map (fun d => Event.queueDone d.1)
      ∧ ((work K w (pre ++ (last, true) :: rest)).log.filter
          (fun x => decide (x = .queueGet))).length = pre.length + 1
      ∧ ((work K w (pre ++ (last, true) :: rest)).log.filter
          (fun x => decide (x = .wgDone))).length = 1
      ∧ (work K w (pre ++ (last, true) :: rest)).log.getLast? = some .wgDone
      ∧ ∀ k, (work K w (pre.take k)).ret = .blockedOnGet by
    exact ⟨hmain.1, hmain.2.1, hmain.2.2.1, hmain.2.2.2.1, hmain.2.2.2.2.1, hblocked,
      hmain.2.2.2.2.2⟩
  clear hblocked
  induction pre generalizing w with
  | nil => simp [work, Event.isDone]
  | cons d pre ih =>
    obtain ⟨obj, flag⟩ := d
    have hflag : flag = false := hpre (obj, flag) (List.mem_cons_self _ _)
    subst hflag
    have hrest : ∀ d ∈ pre, d.2 = false := fun d hd => hpre d (List.mem_cons_of_mem _ hd)
    obtain ⟨h1, h2, h3, h4, h5, h6⟩ := ih (workIteration K w obj).world hrest
    rw [List.cons_append, work_cons_false]
    refine ⟨h1, ?_, ?_, ?_, ?_, ?_⟩
    · rw [List.filter_cons]
      simp only [Event.isDone, Bool.false_eq_true, if_false]
      rw [List.filter_append, workIteration_filter_done, h2]
      rfl
    · rw [List.filter_cons]
      simp only [decide_True, if_true, List.length_cons]
      rw [List.filter_append, workIteration_filter_other K w obj _ (Or.inl rfl)]
      simpa using h3
    · rw [List.filter_cons]
      simp only [reduceCtorEq, decide_False, Bool.false_eq_true, if_false]
      rw [List.filter_append, workIteration_filter_other K w obj _ (Or.inr rfl)]
      simpa using h4
    · rw [List.getLast?_cons, List.getLast?_append, h5]
      rfl
    · intro k
      cases k with
      | zero => simp [work]
      | succ k =>
        rw [List.take_succ_cons, work_cons_false]
        exact h6 k

theorem worker_runs_until_shutdown_witness :
    (work demo 0 [(.str "default/db", false), (.other 7, false),
        (.str "default/flaky", false), (.str "", true), (.str "late", false)]).log
        = [.queueGet, .listerGet "db", .sync ⟨"default", "db", 2⟩,
            .queueForget (.str "default/db"), .queueDone (.str "default/db"),
            .queueGet, .queueDone (.other 7),
            .queueGet, .listerGet "flaky", .sync ⟨"default", "flaky", 1⟩,
            .queueDone (.str "default/flaky"), .queueAddRateLimited (.str "default/flaky"),
            .queueGet, .wgDone]
      ∧ (work demo 0 [(.str "default/db", false), (.other 7, false),
          (.str "default/flaky", false), (.str "", true), (.str "late", false)]).world = 2
      ∧ (work demo 0 [(.str "default/db", false), (.other 7, false),
          (.str "default/flaky", false), (.str "", true), (.str "late", false)]).ret
          = .returned :=
  ⟨(congrArg Outcome.log (worker_runs_until_shutdown demo 0
      [(.str "default/db", false), (.other 7, false), (.str "default/flaky", false)]
      (.str "") [(.str "late", false)] (by decide)).1).trans (by decide),
   (congrArg Outcome.world (worker_runs_until_shutdown demo 0
      [(.str "default/db", false), (.other 7, false), (.str "default/flaky", false)]
      (.str "") [(.str "late", false)] (by decide)).1).trans (by decide),
   (worker_runs_until_shutdown demo 0
      [(.str "default/db", false), (.other 7, false), (.str "default/flaky", false)]
      (.str "") [(.str "late", false)] (by decide)).2.2.2.1⟩

/-! ## Startup -/

theorem mem_spawnWorkers {workers : Int} {e : Event} (h : e ∈ spawnWorkers workers) :
    e = .wgAdd ∨ ∃ i, e = .goWorker i := by
  unfold spawnWorkers at h
  rw [List.mem_flatMap] at h
  obtain ⟨i, _, hi⟩ := h
  simp only [List.mem_cons, List.mem_singleton, List.not_mem_nil, or_false] at hi
  rcases hi with rfl | rfl
  · exact Or.inl rfl
  · exact Or.inr ⟨i, rfl⟩

theorem createCRDIfNotExists_log {σ : Type} (K : Collaborators σ) (w : σ) :
    (createCRDIfNotExists K w).log = [.createCRD]
      ∨ (createCRDIfNotExists K w).log = [.createCRD, .waitCRDReady] := by
  unfold createCRDIfNotExists
  split
  · exact Or.inl rfl
  · exact Or.inr rfl

theorem startAfterBootstrap_log {σ : Type} (K : Collaborators σ) (workers : Int)
    (w : σ) (pre : List Event) :
    ∃ tail : List Event,
      (startAfterBootstrap K workers w pre).log
          = pre ++ [.informerSynced, .informerSynced, .waitForCacheSync] ++ tail
        ∧ ∀ e ∈ tail, e ≠ .createCRD ∧ e ≠ .waitCRDReady := by
  have hspawn : ∀ e ∈ spawnWorkers workers, e ≠ .createCRD ∧ e ≠ .waitCRDReady := by
    intro e he
    rcases mem_spawnWorkers he with h | ⟨i, h⟩ <;> subst h <;> simp
  unfold startAfterBootstrap
  split
  · exact ⟨[], by simp, by simp⟩
  · split
    · refine ⟨spawnWorkers workers ++ [.recvStop], by simp, ?_⟩
      intro e he
      rcases List.mem_append.mp he with h | h
      · exact hspawn e h
      · simp only [List.mem_singleton] at h
        subst h
        simp
    · split <;>
      · refine ⟨spawnWorkers workers ++ [.recvStop, .queueShutDown, .wgWait], by simp, ?_⟩
        intro e he
        rcases List.mem_append.mp he with h | h
        · exact hspawn e h
        · simp only [List.mem_cons, List.mem_singleton, List.not_mem_nil, or_false] at h
          rcases h with h | h | h <;> subst h <;> simp

theorem startAfterBootstrap_registrar_free {σ : Type} (K : Collaborators σ)
    (workers : Int) (w : σ) :
    Event.createCRD ∉ (startAfterBootstrap K workers w []).log
      ∧ Event.waitCRDReady ∉ (startAfterBootstrap K workers w []).log := by
  obtain ⟨tail, hlog, htail⟩ := startAfterBootstrap_log K workers w []
  rw [hlog]
  constructor <;>
  · intro hmem
    simp only [List.nil_append, List.mem_append, List.mem_cons, List.mem_singleton,
      List.not_mem_nil, or_false, reduceCtorEq, false_or] at hmem
    have := htail _ hmem
    simp at this

theorem startAfterBootstrap_wait_failed {σ : Type} (K : Collaborators σ)
    (workers : Int) (w : σ) (pre : List Event) (hw : (K.WaitForCacheSync w).1 = false) :
    startAfterBootstrap K workers w pre
      = ⟨some ⟨"error waiting for informer cache to sync."⟩, (K.WaitForCacheSync w).2,
          pre ++ [.informerSynced, .informerSynced, .waitForCacheSync], .returned⟩ := by
  unfold startAfterBootstrap
  rcases hk : K.WaitForCacheSync w with ⟨b, w2⟩
  rw [hk] at hw
  simp only at hw
  subst hw
  rfl

/-- C5: when the bootstrap step is run (the flag `CreateCRD` is false) and
returns an error, or when the cache-sync wait returns false, `Start` returns, the
value returned is an error, and no worker is started; a bootstrap error is the
value returned, and `Start` has then made the calls of the bootstrap only, so
the cache-sync wait is not attempted. -/
theorem start_does_not_serve_after_startup_failure {σ : Type} (c : Controller)
    (K : Collaborators σ) (workers : Int) (w : σ)
    (h : (c.CreateCRD = false ∧ (createCRDIfNotExists K w).ret ≠ none)
          ∨ (K.WaitForCacheSync (worldAtCacheSync c K w)).1 = false) :
    (Start c K workers w).ret ≠ none
      ∧ (Start c K workers w).log.filter Event.isGoWorker = []
      ∧ (c.CreateCRD = false → ∀ err, (createCRDIfNotExists K w).ret = some err →
          (Start c K workers w).ret = some err
            ∧ (Start c K workers w).log = (createCRDIfNotExists K w).log
            ∧ Event.waitForCacheSync ∉ (Start c K workers w).log)
      ∧ (Start c K workers w).status = .returned := by
  have hboot : ∀ err, c.CreateCRD = false → (createCRDIfNotExists K w).ret = some err →
      Start c K workers w
        = ⟨some err, (createCRDIfNotExists K w).world, (createCRDIfNotExists K w).log,
            .returned⟩ := by
    intro err hc he
    simp [Start, hc, he]
  have hwait := startAfterBootstrap_wait_failed K workers
  have hlogs := createCRDIfNotExists_log K w
  have hfail : ∀ err, c.CreateCRD = false → (createCRDIfNotExists K w).ret = some err →
      (Start c K workers w).ret = some err
        ∧ (Start c K workers w).log = (createCRDIfNotExists K w).log
        ∧ Event.waitForCacheSync ∉ (Start c K workers w).log := by
    intro err hc he
    rw [hboot err hc he]
    refine ⟨rfl, rfl, ?_⟩
    rcases hlogs with hl | hl <;> simp [hl]
  have hnow : ∀ err, c.CreateCRD = false → (createCRDIfNotExists K w).ret = some err →
      (Start c K workers w).log.filter Event.isGoWorker = [] := by
    intro err hc he
    rw [hboot err hc he]
    rcases hlogs with hl | hl <;> simp [hl, Event.isGoWorker]
  refine ⟨?_, ?_, fun hc err he => hfail err hc he, ?_⟩
  · rcases h with ⟨hc, hne⟩ | hw
    · obtain ⟨err, he⟩ := Option.ne_none_iff_exists'.mp hne
      rw [(hfail err hc he).1]
      simp
    · cases hc : c.CreateCRD with
      | true =>
        simp only [worldAtCacheSync, hc, if_true] at hw
        simp [Start, hc, hwait w [] hw]
      | false =>
        simp only [worldAtCacheSync, hc, Bool.false_eq_true, if_false] at hw
        cases he : (createCRDIfNotExists K w).ret with
        | some err => rw [(hfail err hc he).1]; simp
        | none => simp [Start, hc, he, hwait _ _ hw]
  · rcases h with ⟨hc, hne⟩ | hw
    · obtain ⟨err, he⟩ := Option.ne_none_iff_exists'.mp hne
      exact hnow err hc he
    · cases hc : c.CreateCRD with
      | true =>
        simp only [worldAtCacheSync, hc, if_true] at hw
        simp [Start, hc, hwait w [] hw, Event.isGoWorker]
      | false =>
        simp only [worldAtCacheSync, hc, Bool.false_eq_true, if_false] at hw
        cases he : (createCRDIfNotExists K w).ret with
        | some err => exact hnow err hc he
        | none =>
          simp only [Start, hc, Bool.not_false, if_true, he, hwait _ _ hw]
          rcases hlogs with hl | hl <;> simp [hl, Event.isGoWorker]
  · rcases h with ⟨hc, hne⟩ | hw
    · obtain ⟨err, he⟩ := Option.ne_none_iff_exists'.mp hne
      rw [hboot err hc he]
    · cases hc : c.CreateCRD with
      | true =>
        simp only [worldAtCacheSync, hc, if_true] at hw
        simp [Start, hc, hwait w [] hw]
      | false =>
        simp only [worldAtCacheSync, hc, Bool.false_eq_true, if_false] at hw
        cases he : (createCRDIfNotExists K w).ret with
        | some err => rw [hboot err hc he]
        | none => simp [Start, hc, he, hwait _ _ hw]

theorem start_does_not_serve_after_startup_failure_witness :
    (Start ⟨"default", "operator", false⟩ demoNoRegistrar 3 0).ret ≠ none
      ∧ (Start ⟨"default", "operator", true⟩ demoStopped 3 0).ret ≠ none :=
  ⟨(start_does_not_serve_after_startup_failure ⟨"default", "operator", false⟩
      demoNoRegistrar 3 0 (Or.inl ⟨rfl, by decide⟩)).1,
   (start_does_not_serve_after_startup_failure ⟨"default", "operator", true⟩
      demoStopped 3 0 (Or.inr rfl)).1⟩

theorem start_waits_when_stop_precedes_workers :
    (Start ⟨"default", "operator", true⟩ demoEarlyStop 2 0).status = .blockedOnWait
      ∧ (Start ⟨"default", "operator", true⟩ demo 2 0).status = .returned
      ∧ (Start ⟨"default", "operator", true⟩ demo 2 0).ret = none := by
  decide

/-- C10 (as stated, refuted): with the flag `CreateCRD` true and two workers,
`Start` makes no call on the schema registrar and goes straight to the
cache-sync wait; with the flag false its first calls are `CreateCRD` and
`WaitCRDReady`. -/
theorem bootstrap_skipped_when_flag_is_true :
    (Start ⟨"default", "operator", true⟩ demo 2 0).log
        = [.informerSynced, .informerSynced, .waitForCacheSync, .wgAdd, .goWorker 0,
            .wgAdd, .goWorker 1, .recvStop, .queueShutDown, .wgWait]
      ∧ Event.createCRD ∉ (Start ⟨"default", "operator", true⟩ demo 2 0).log
      ∧ (Start ⟨"default", "operator", false⟩ demo 2 0).log
          = [.createCRD, .waitCRDReady, .informerSynced, .informerSynced,
              .waitForCacheSync, .wgAdd, .goWorker 0, .wgAdd, .goWorker 1, .recvStop,
              .queueShutDown, .wgWait] := by
  decide

/-- C10 (amended): `Start` performs the bootstrap step `createCRDIfNotExists` if
and only if the flag `CreateCRD` is false.  When the flag is true `Start` is the
part that begins with the cache-sync wait (its first calls are the two reads
of the informer for the log and `WaitForCacheSync`), with no call on the schema
registrar; when it is false the calls of `Start` begin with those of
`createCRDIfNotExists`. -/
theorem bootstrap_runs_iff_flag_is_false {σ : Type} (c : Controller)
    (K : Collaborators σ) (workers : Int) (w : σ) :
    (Event.createCRD ∈ (Start c K workers w).log ↔ c.CreateCRD = false)
      ∧ Start { c with CreateCRD := true } K workers w = startAfterBootstrap K workers w []
      ∧ [Event.informerSynced, Event.informerSynced, Event.waitForCacheSync]
          <+: (Start { c with CreateCRD := true } K workers w).log
      ∧ Event.createCRD ∉ (Start { c with CreateCRD := true } K workers w).log
      ∧ Event.waitCRDReady ∉ (Start { c with CreateCRD := true } K workers w).log
      ∧ (createCRDIfNotExists K w).log
          <+: (Start { c with CreateCRD := false } K workers w).log := by
  have htrue : Start { c with CreateCRD := true } K workers w
      = startAfterBootstrap K workers w [] := by
    simp [Start]
  have hfree := startAfterBootstrap_registrar_free K workers w
  have hprefix : ∀ c2 : Controller, c2.CreateCRD = false →
      (createCRDIfNotExists K w).log <+: (Start c2 K workers w).log := by
    intro c2 hc
    simp only [Start, hc, Bool.not_false, if_true]
    cases he : (createCRDIfNotExists K w).ret with
    | some err => exact List.prefix_refl _
    | none =>
      dsimp only
      obtain ⟨tail, hlog, _⟩ :=
        startAfterBootstrap_log K workers (createCRDIfNotExists K w).world
          (createCRDIfNotExists K w).log
      rw [hlog, List.append_assoc]
      exact List.prefix_append _ _
  have hdirect : [Event.informerSynced, Event.informerSynced, Event.waitForCacheSync]
      <+: (startAfterBootstrap K workers w []).log := by
    obtain ⟨tail, hlog, _⟩ := startAfterBootstrap_log K workers w []
    rw [hlog, List.nil_append]
    exact List.prefix_append _ _
  refine ⟨?_, htrue, by rw [htrue]; exact hdirect, by rw [htrue]; exact hfree.1,
    by rw [htrue]; exact hfree.2, hprefix _ rfl⟩
  cases hc : c.CreateCRD with
  | true =>
    simp only [Start, hc, Bool.not_true, Bool.false_eq_true, if_false, reduceCtorEq,
      iff_false]
    exact hfree.1
  | false =>
    simp only [iff_true]
    have hp := hprefix c hc
    have hmem : Event.createCRD ∈ (createCRDIfNotExists K w).log := by
      rcases createCRDIfNotExists_log K w with hl | hl <;> simp [hl]
    exact hp.subset hmem

/-! ## The Ready condition -/

theorem findCondition_update (conds : List Condition) (condType : String)
    (status : ConditionStatus) (reason message : String) (now : Nat) :
    findCondition (updateStatusCondition conds condType status reason message now) condType
      = some ⟨condType, status, reason, message,
          match findCondition conds condType with
          | some old => if old.status = status then old.lastTransitionTime else now
          | none => now⟩ := by
  induction conds with
  | nil => simp [updateStatusCondition, findCondition]
  | cons c cs ih =>
    unfold findCondition at ih ⊢
    by_cases hc : c.condType = condType
    · by_cases hs : c.status = status <;>
        simp [updateStatusCondition, hc, hs, List.find?_cons]
    · simp only [updateStatusCondition, hc, if_false, List.find?_cons, decide_False]
      exact ih

theorem readyStatus_true_iff (cluster : MysqlCluster) (sts : StatefulSet) :
    readyStatus cluster sts = .ConditionTrue
      ↔ sts.readyReplicas = sts.specReplicas ∧ sts.readyReplicas = cluster.Replicas := by
  unfold readyStatus
  split
  · rename_i h
    exact ⟨fun _ => h, fun _ => rfl⟩
  · rename_i h
    constructor
    · intro hc
      cases hc
    · intro hc
      exact absurd hc h

theorem readyStatus_cases (cluster : MysqlCluster) (sts : StatefulSet) :
    readyStatus cluster sts = .ConditionTrue ∨ readyStatus cluster sts = .ConditionFalse := by
  unfold readyStatus
  split
  · exact Or.inl rfl
  · exact Or.inr rfl

theorem readyStatus_agreed (cluster : MysqlCluster) (sts : StatefulSet)
    (h : sts.specReplicas = cluster.Replicas) :
    (readyStatus cluster sts = .ConditionTrue ↔ sts.readyReplicas = cluster.Replicas)
      ∧ (readyStatus cluster sts = .ConditionFalse ↔ sts.readyReplicas ≠ cluster.Replicas)
      ∧ (readyStatus cluster sts = .ConditionTrue ↔ sts.readyReplicas = sts.specReplicas) := by
  have ht := readyStatus_true_iff cluster sts
  rw [h] at ht ⊢
  have ht2 : readyStatus cluster sts = .ConditionTrue
      ↔ sts.readyReplicas = cluster.Replicas :=
    ht.trans ⟨fun hh => hh.1, fun hh => ⟨hh, hh⟩⟩
  refine ⟨ht2, ?_, ht2⟩
  rcases readyStatus_cases cluster sts with a | a
  · rw [a]
    constructor
    · intro hc
      cases hc
    · intro hne
      exact absurd (ht2.mp a) hne
  · constructor
    · intro _ heq
      have := ht2.mpr heq
      rw [a] at this
      cases this
    · intro _
      exact a

/-- C7: after `Sync` the cluster has a Ready condition.  Whenever the declared
replica count is one count, declared on the cluster spec and carried by the
workload, the status of the condition is True if and only if the observed
ready-replica count of the workload equals the declared replica count, and
False otherwise (in general it is True exactly when the ready count equals
both declared counts, and it is always True or False).  Over two successive
runs of `Sync` the `lastTransitionTime` of the condition is kept whenever the
status is the same, so it changes only when the status flips between True and
False. -/
theorem ready_condition_after_sync (cluster1 cluster2 : MysqlCluster)
    (sts1 sts2 : StatefulSet) (conds : List Condition)
    (reason1 message1 reason2 message2 : String) (now1 now2 : Nat) :
    ∃ c1 c2 : Condition,
      findCondition (syncStatus cluster1 sts1 conds reason1 message1 now1) "Ready" = some c1
        ∧ findCondition
            (syncStatus cluster2 sts2 (syncStatus cluster1 sts1 conds reason1 message1 now1)
              reason2 message2 now2) "Ready" = some c2
        ∧ (sts1.specReplicas = cluster1.Replicas →
            (c1.status = .ConditionTrue ↔ sts1.readyReplicas = cluster1.Replicas)
              ∧ (c1.status = .ConditionFalse ↔ sts1.readyReplicas ≠ cluster1.Replicas)
              ∧ (c1.status = .ConditionTrue ↔ sts1.readyReplicas = sts1.specReplicas))
        ∧ (sts2.specReplicas = cluster2.Replicas →
            (c2.status = .ConditionTrue ↔ sts2.readyReplicas = cluster2.Replicas)
              ∧ (c2.status = .ConditionFalse ↔ sts2.readyReplicas ≠ cluster2.Replicas)
              ∧ (c2.status = .ConditionTrue ↔ sts2.readyReplicas = sts2.specReplicas))
        ∧ (c1.status = .ConditionTrue
            ↔ sts1.readyReplicas = sts1.specReplicas ∧ sts1.readyReplicas = cluster1.Replicas)
        ∧ (c2.status = .ConditionTrue
            ↔ sts2.readyReplicas = sts2.specReplicas ∧ sts2.readyReplicas = cluster2.Replicas)
        ∧ (c1.status = .ConditionTrue ∨ c1.status = .ConditionFalse)
        ∧ (c2.status = .ConditionTrue ∨ c2.status = .ConditionFalse)
        ∧ (c1.status = c2.status → c2.lastTransitionTime = c1.lastTransitionTime)
        ∧ (c2.lastTransitionTime ≠ c1.lastTransitionTime →
            (c1.status = .ConditionTrue ∧ c2.status = .ConditionFalse)
              ∨ (c1.status = .ConditionFalse ∧ c2.status = .ConditionTrue)) := by
  have h1 := findCondition_update conds "Ready" (readyStatus cluster1 sts1)
    reason1 message1 now1
  have h2 := findCondition_update
    (updateStatusCondition conds "Ready" (readyStatus cluster1 sts1) reason1 message1 now1)
    "Ready" (readyStatus cluster2 sts2) reason2 message2 now2
  rw [h1] at h2
  have hkeep : readyStatus cluster1 sts1 = readyStatus cluster2 sts2 →
      (if readyStatus cluster1 sts1 = readyStatus cluster2 sts2 then
          (match findCondition conds "Ready" with
            | some old =>
              if old.status = readyStatus cluster1 sts1 then old.lastTransitionTime else now1
            | none => now1)
        else now2)
        = (match findCondition conds "Ready" with
            | some old =>
              if old.status = readyStatus cluster1 sts1 then old.lastTransitionTime else now1
            | none => now1) := by
    intro he
    rw [if_pos he]
  refine ⟨_, _, h1, h2, readyStatus_agreed cluster1 sts1, readyStatus_agreed cluster2 sts2,
    readyStatus_true_iff cluster1 sts1, readyStatus_true_iff cluster2 sts2,
    readyStatus_cases cluster1 sts1, readyStatus_cases cluster2 sts2, hkeep, ?_⟩
  intro hne
  have hs : readyStatus cluster1 sts1 ≠ readyStatus cluster2 sts2 :=
    fun he => hne (hkeep he)
  rcases readyStatus_cases cluster1 sts1 with a | a <;>
    rcases readyStatus_cases cluster2 sts2 with b | b
  · exact absurd (a.trans b.symm) hs
  · exact Or.inl ⟨a, b⟩
  · exact Or.inr ⟨a, b⟩
  · exact absurd (a.trans b.symm) hs

theorem ready_condition_after_sync_witness :
    (∃ c1 c2 : Condition,
      findCondition (syncStatus ⟨"default", "db", 2⟩ ⟨2, 1⟩ [] "" "" 10) "Ready" = some c1
        ∧ findCondition
            (syncStatus ⟨"default", "db", 2⟩ ⟨2, 2⟩
              (syncStatus ⟨"default", "db", 2⟩ ⟨2, 1⟩ [] "" "" 10) "" "" 20) "Ready"
            = some c2
        ∧ (c1.status = .ConditionFalse ↔ (1 : Int) ≠ 2)
        ∧ (c2.status = .ConditionTrue ↔ (2 : Int) = 2))
      ∧ findCondition (syncStatus ⟨"default", "db", 2⟩ ⟨2, 1⟩ [] "" "" 10) "Ready"
          = some ⟨"Ready", .ConditionFalse, "", "", 10⟩
      ∧ findCondition
            (syncStatus ⟨"default", "db", 2⟩ ⟨2, 2⟩
              (syncStatus ⟨"default", "db", 2⟩ ⟨2, 1⟩ [] "" "" 10) "" "" 20) "Ready"
          = some ⟨"Ready", .ConditionTrue, "", "", 20⟩ :=
  ⟨(ready_condition_after_sync ⟨"default", "db", 2⟩ ⟨"default", "db", 2⟩ ⟨2, 1⟩ ⟨2, 2⟩ []
      "" "" "" "" 10 20).imp
      (fun _ h => h.imp (fun _ hh => ⟨hh.1, hh.2.1, (hh.2.2.1 rfl).2.1, (hh.2.2.2.1 rfl).1⟩)),
   by decide, by decide⟩

/-! ## Backoff -/

theorem run_append (ops1 ops2 : List QueueOp) :
    ∀ r : RateLimiter, r.run (ops1 ++ ops2) = r.run ops1 ++ (r.after ops1).run ops2 := by
  induction ops1 with
  | nil => intro r; rfl
  | cons op ops ih =>
    intro r
    cases op <;> simp [RateLimiter.run, RateLimiter.after, ih]

theorem after_append (ops1 ops2 : List QueueOp) :
    ∀ r : RateLimiter, r.after (ops1 ++ ops2) = (r.after ops1).after ops2 := by
  induction ops1 with
  | nil => intro r; rfl
  | cons op ops ih =>
    intro r
    cases op <;> simp [RateLimiter.after, ih]

theorem reserve_at_last (r : RateLimiter) (hb : 1 ≤ r.burst)
    (hc : r.credit ≤ ((r.burst * r.perToken : Nat) : Int))
    (hw : (r.perToken : Int) - r.credit ≤ (InfDuration : Int)) :
    r.reserve r.last
      = (((r.perToken : Int) - r.credit).toNat, r.credit - r.perToken, r.last) := by
  have hneg : -(r.credit - (r.perToken : Int)) = (r.perToken : Int) - r.credit := by ring
  have hwait : ((r.perToken : Int) - r.credit).toNat ≤ InfDuration := by
    rw [Int.toNat_le]
    exact hw
  unfold RateLimiter.reserve
  simp only [Nat.min_self, Nat.sub_self, Nat.cast_zero, add_zero, min_eq_left hc, hneg]
  rw [if_pos ⟨hb, hwait⟩]

theorem run_burstOfOthers_item (n : Nat) :
    ∀ r : RateLimiter, ∀ a ∈ r.run (burstOfOthers n), a.item = .other 0 := by
  induction n with
  | zero => intro r a ha; simp [burstOfOthers, RateLimiter.run] at ha
  | succ n ih =>
    intro r a ha
    simp only [burstOfOthers, List.replicate_succ, RateLimiter.run, List.mem_cons] at ha
    rcases ha with rfl | ha
    · rfl
    · exact ih _ a ha

theorem after_burstOfOthers (n : Nat) :
    ∀ r : RateLimiter, r.last = 0 → 1 ≤ r.burst →
      r.credit ≤ ((r.burst * r.perToken : Nat) : Int) →
      (n : Int) * (r.perToken : Int) - r.credit ≤ (InfDuration : Int) →
      r.after (burstOfOthers n)
        = { r with
            failures := fun o => if o = .other 0 then r.failures (.other 0) + n
              else r.failures o
            credit := r.credit - (n : Int) * (r.perToken : Int) } := by
  induction n with
  | zero =>
    intro r _ _ _ _
    obtain ⟨b, m, f, p, bu, c, l⟩ := r
    simp only [burstOfOthers, List.replicate_zero, RateLimiter.after, Nat.cast_zero,
      zero_mul, sub_zero, add_zero, RateLimiter.mk.injEq, true_and, and_true]
    funext o
    split
    · rename_i h; rw [h]
    · rfl
  | succ n ih =>
    intro r hl hb hc hw
    obtain ⟨b, m, f, p, bu, c, l⟩ := r
    simp only at hl hb hc hw
    subst hl
    have hp : (0 : Int) ≤ (n : Int) * (p : Int) :=
      mul_nonneg (Int.ofNat_nonneg _) (Int.ofNat_nonneg _)
    have hp0 : (0 : Int) ≤ (p : Int) := Int.ofNat_nonneg _
    have hw2 : ((n : Int) + 1) * (p : Int) - c ≤ (InfDuration : Int) := by
      push_cast at hw
      exact hw
    have hw1 : (p : Int) - c ≤ (InfDuration : Int) := by
      linarith
    have hres := reserve_at_last ⟨b, m, f, p, bu, c, 0⟩ hb hc hw1
    simp only at hres
    have hstep : RateLimiter.after ⟨b, m, f, p, bu, c, 0⟩ (burstOfOthers (n + 1))
        = (RateLimiter.When ⟨b, m, f, p, bu, c, 0⟩ (.other 0) 0).2.after
            (burstOfOthers n) := by
      simp [burstOfOthers, List.replicate_succ, RateLimiter.after]
    have hwhen : (RateLimiter.When ⟨b, m, f, p, bu, c, 0⟩ (.other 0) 0).2
        = ⟨b, m, fun o => if o = .other 0 then f (.other 0) + 1 else f o, p, bu,
            c - (p : Int), 0⟩ := by
      simp only [RateLimiter.When, hres]
    rw [hstep, hwhen, ih _ rfl hb (by simp only; linarith) (by simp only; linarith)]
    simp only [RateLimiter.mk.injEq, true_and, and_true]
    constructor
    · funext o
      by_cases ho : o = .other 0
      · simp [ho, Nat.add_assoc, Nat.add_comm 1 n]
      · simp [ho]
    · push_cast
      ring

theorem delaysOf_append (item : Obj) (l1 l2 : List Applied) :
    delaysOf item (l1 ++ l2) = delaysOf item l1 ++ delaysOf item l2 := by
  simp [delaysOf]

theorem delaysOf_burstOfOthers (key : String) (n : Nat) (r : RateLimiter) :
    delaysOf (.str key) (r.run (burstOfOthers n)) = [] := by
  unfold delaysOf
  rw [List.map_eq_nil_iff, List.filter_eq_nil_iff]
  intro a ha
  rw [run_burstOfOthers_item n r a ha]
  simp

theorem backoffsOf_run_bounds (item : Obj) (ops : List QueueOp) :
    ∀ r : RateLimiter, QueueOp.forget item ∉ ops →
      ∀ d ∈ backoffsOf item (r.run ops),
        min (r.baseDelay * 2 ^ r.failures item) r.maxDelay ≤ d ∧ d ≤ r.maxDelay := by
  induction ops with
  | nil => intro r _ d hd; simp [RateLimiter.run, backoffsOf] at hd
  | cons op ops ih =>
    intro r hno d hd
    have hno2 : QueueOp.forget item ∉ ops := fun h => hno (List.mem_cons_of_mem _ h)
    cases op with
    | forget it =>
      have hne : it ≠ item := by
        intro h
        subst h
        exact hno (List.mem_cons_self _ _)
      have hf : (r.Forget it).failures item = r.failures item := by
        simp [RateLimiter.Forget, Ne.symm hne]
      have := ih (r.Forget it) hno2 d (by simpa [RateLimiter.run] using hd)
      rw [hf] at this
      exact this
    | addRateLimited it now =>
      by_cases hit : it = item
      · subst hit
        have hf : ((r.When it now).2).failures it = r.failures it + 1 := by
          simp [RateLimiter.When]
        have hmono : min (r.baseDelay * 2 ^ r.failures it) r.maxDelay
            ≤ min (r.baseDelay * 2 ^ (r.failures it + 1)) r.maxDelay := by
          apply min_le_min_right
          apply Nat.mul_le_mul_left
          exact Nat.pow_le_pow_right (by decide) (Nat.le_succ _)
        simp only [RateLimiter.run, backoffsOf, List.filter_cons, decide_True, if_true,
          List.map_cons, List.mem_cons] at hd
        rcases hd with rfl | hd
        · exact ⟨le_refl _, min_le_right _ _⟩
        · have := ih (r.When it now).2 hno2 d hd
          rw [hf] at this
          exact ⟨le_trans hmono this.1, this.2⟩
      · have hf : ((r.When it now).2).failures item = r.failures item := by
          simp [RateLimiter.When, Ne.symm hit]
        have hd2 : d ∈ backoffsOf item ((r.When it now).2.run ops) := by
          simpa [RateLimiter.run, backoffsOf, hit] using hd
        have := ih (r.When it now).2 hno2 d hd2
        rw [hf] at this
        exact this

theorem backoffsOf_run_pairwise (item : Obj) (ops : List QueueOp) :
    ∀ r : RateLimiter, QueueOp.forget item ∉ ops →
      (backoffsOf item (r.run ops)).Pairwise (fun a b => a ≤ b) := by
  induction ops with
  | nil => intro r _; simp [RateLimiter.run, backoffsOf]
  | cons op ops ih =>
    intro r hno
    have hno2 : QueueOp.forget item ∉ ops := fun h => hno (List.mem_cons_of_mem _ h)
    cases op with
    | forget it => simpa [RateLimiter.run] using ih (r.Forget it) hno2
    | addRateLimited it now =>
      by_cases hit : it = item
      · subst hit
        have hf : ((r.When it now).2).failures it = r.failures it + 1 := by
          simp [RateLimiter.When]
        simp only [RateLimiter.run, backoffsOf, List.filter_cons, decide_True, if_true,
          List.map_cons, List.pairwise_cons]
        refine ⟨?_, ih (r.When it now).2 hno2⟩
        intro d hd
        have := (backoffsOf_run_bounds it ops (r.When it now).2 hno2 d hd).1
        rw [hf] at this
        refine le_trans ?_ this
        apply min_le_min_right
        apply Nat.mul_le_mul_left
        exact Nat.pow_le_pow_right (by decide) (Nat.le_succ _)
      · have := ih (r.When it now).2 hno2
        simpa [RateLimiter.run, backoffsOf, hit] using this

theorem backoffsOf_run_formula (item : Obj) (ops : List QueueOp) :
    ∀ r : RateLimiter, QueueOp.forget item ∉ ops →
      backoffsOf item (r.run ops)
        = (List.range (backoffsOf item (r.run ops)).length).map
            (fun i => min (r.baseDelay * 2 ^ (r.failures item + i)) r.maxDelay) := by
  induction ops with
  | nil => intro r _; simp [RateLimiter.run, backoffsOf]
  | cons op ops ih =>
    intro r hno
    have hno2 : QueueOp.forget item ∉ ops := fun h => hno (List.mem_cons_of_mem _ h)
    cases op with
    | forget it =>
      have hne : it ≠ item := by
        intro h
        subst h
        exact hno (List.mem_cons_self _ _)
      have hf : (r.Forget it).failures item = r.failures item := by
        simp [RateLimiter.Forget, Ne.symm hne]
      have := ih (r.Forget it) hno2
      rw [hf] at this
      simpa [RateLimiter.run] using this
    | addRateLimited it now =>
      by_cases hit : it = item
      · subst hit
        have hf : ((r.When it now).2).failures it = r.failures it + 1 := by
          simp [RateLimiter.When]
        have hrun : backoffsOf it (r.run (.addRateLimited it now :: ops))
            = min (r.baseDelay * 2 ^ r.failures it) r.maxDelay
                :: backoffsOf it ((r.When it now).2.run ops) := by
          simp [RateLimiter.run, backoffsOf, RateLimiter.backoff]
        have := ih (r.When it now).2 hno2
        rw [hf] at this
        rw [hrun, List.length_cons, List.range_succ_eq_map, List.map_cons, List.map_map]
        congr 1
        rw [this]
        simp only [List.length_map, List.length_range]
        apply List.map_congr_left
        intro i _
        simp only [Function.comp, RateLimiter.When]
        congr 3
        omega
      · have hf : ((r.When it now).2).failures item = r.failures item := by
          simp [RateLimiter.When, Ne.symm hit]
        have hrun : backoffsOf item (r.run (.addRateLimited it now :: ops))
            = backoffsOf item ((r.When it now).2.run ops) := by
          simp [RateLimiter.run, backoffsOf, hit]
        have := ih (r.When it now).2 hno2
        rw [hf] at this
        rw [hrun]
        simpa [RateLimiter.When] using this

theorem run_delay_is_max (ops : List QueueOp) :
    ∀ r : RateLimiter, ∀ a ∈ r.run ops, a.delay = max a.backoff a.wait := by
  induction ops with
  | nil => intro r a ha; simp [RateLimiter.run] at ha
  | cons op ops ih =>
    intro r a ha
    cases op with
    | forget it => exact ih _ a (by simpa [RateLimiter.run] using ha)
    | addRateLimited it now =>
      simp only [RateLimiter.run, List.mem_cons] at ha
      rcases ha with rfl | ha
      · rfl
      · exact ih _ a ha

/-- C8 (as stated, refuted): on the limiter the queue is built with, while 110
other items fail at the same instant, the first failure of the key `a` is
delayed by 1.1 s and its second failure, a minute later and with no `Forget`
in between, by 10 ms, so the delay decreases; and after 10100 failures of
other items at one instant the first failure of `a` is delayed by 1000.1 s,
more than the maximal delay of 1000 s. -/
theorem default_limiter_delay_drops_and_passes_ceiling :
    delaysOf (.str "a") (DefaultControllerRateLimiter.run
        (burstOfOthers 110 ++ [.addRateLimited (.str "a") 0,
          .addRateLimited (.str "a") 60000000000])) = [1100000000, 10000000]
      ∧ QueueOp.forget (.str "a") ∉ burstOfOthers 110 ++
          [.addRateLimited (.str "a") 0, .addRateLimited (.str "a") 60000000000]
      ∧ delaysOf (.str "a") (DefaultControllerRateLimiter.run
          (burstOfOthers 10100 ++ [.addRateLimited (.str "a") 0])) = [1000100000000]
      ∧ DefaultControllerRateLimiter.maxDelay < 1000100000000 := by
  refine ⟨?_, ?_, ?_, by decide⟩
  · rw [run_append, delaysOf_append, delaysOf_burstOfOthers,
      after_burstOfOthers 110 DefaultControllerRateLimiter rfl (by decide) (by decide)
        (by decide)]
    decide
  · simp [burstOfOthers]
  · rw [run_append, delaysOf_append, delaysOf_burstOfOthers,
      after_burstOfOthers 10100 DefaultControllerRateLimiter rfl (by decide) (by decide)
        (by decide)]
    decide

/-- C8 (amended): over any sequence of queue operations that holds no `Forget` of
the item, the delays that the per-item exponential part of the limiter computes
for the item are non-decreasing and none exceeds the maximal delay of the
limiter (the one after `i` further failures is the base delay doubled once per
failure recorded, capped at the maximal delay); every delay applied by `AddRateLimited` is the larger of that part and
of the wait of the token bucket; and after `Forget` of the item its failure
counter, as `NumRequeues` reports it, is zero, in whatever state the limiter
was. -/
theorem backoff_part_nondecreasing_and_bounded (r : RateLimiter) (item : Obj)
    (ops : List QueueOp) (hno : QueueOp.forget item ∉ ops) :
    (backoffsOf item (r.run ops)).Pairwise (fun a b => a ≤ b)
      ∧ (∀ d ∈ backoffsOf item (r.run ops), d ≤ r.maxDelay)
      ∧ backoffsOf item (r.run ops)
          = (List.range (backoffsOf item (r.run ops)).length).map
              (fun i => min (r.baseDelay * 2 ^ (r.failures item + i)) r.maxDelay)
      ∧ (∀ a ∈ r.run ops, a.delay = max a.backoff a.wait)
      ∧ ((r.after ops).Forget item).NumRequeues item = 0
      ∧ (r.after (ops ++ [.forget item])).NumRequeues item = 0 := by
  refine ⟨backoffsOf_run_pairwise item ops r hno,
    fun d hd => (backoffsOf_run_bounds item ops r hno d hd).2,
    backoffsOf_run_formula item ops r hno,
    run_delay_is_max ops r, by simp [RateLimiter.Forget, RateLimiter.NumRequeues], ?_⟩
  rw [after_append]
  simp [RateLimiter.after, RateLimiter.Forget, RateLimiter.NumRequeues]

theorem backoff_part_nondecreasing_and_bounded_witness :
    backoffsOf (.str "a") (DefaultControllerRateLimiter.run [.addRateLimited (.str "a") 0,
        .addRateLimited (.str "b") 0, .forget (.str "b"), .addRateLimited (.str "a") 7,
        .addRateLimited (.str "a") 9]) = [5000000, 10000000, 20000000]
      ∧ (backoffsOf (.str "a") (DefaultControllerRateLimiter.run
        [.addRateLimited (.str "a") 0, .addRateLimited (.str "b") 0, .forget (.str "b"),
          .addRateLimited (.str "a") 7, .addRateLimited (.str "a") 9])).Pairwise
          (fun a b => a ≤ b) :=
  ⟨by decide,
   (backoff_part_nondecreasing_and_bounded DefaultControllerRateLimiter (.str "a")
      [.addRateLimited (.str "a") 0, .addRateLimited (.str "b") 0, .forget (.str "b"),
        .addRateLimited (.str "a") 7, .addRateLimited (.str "a") 9] (by decide)).1⟩

end ClusterController
